import Mathlib

/-!
Shallow embedding of shipwright/_lib/image.py.

The module under verification discovers Dockerfiles below a root directory,
resolves each image's name, extracts its parent image and the set of local
paths its build context depends on, and assembles Image records.

Modelling conventions:
* Python strings are Lean String; character-level operations work on
  String.toList.
* Whitespace in regexes, str.strip() and str.split() is modelled as ASCII
  whitespace (space, tab, newline, carriage return, vertical tab, form feed);
  Python 3 also treats some further Unicode code points as whitespace, which
  no claim exercises.
* str.lower() is modelled via Char.toLower, which lowercases ASCII letters;
  Python also lowercases non-ASCII letters, which no claim exercises.
* os.path is modelled as posixpath (the POSIX forms of dirname, basename,
  join and normpath, transcribed from CPython).
* Fallible Python code (functions that may raise) returns Except String,
  with the error string naming the exception class.
-/

namespace Shipwright

/-- ASCII whitespace, the fragment of Python's str whitespace and of the
regex class backslash-s that the claims exercise. -/
def isPySpace (c : Char) : Bool :=
  c = ' ' || c = '\t' || c = '\n' || c = '\r' || c = '\x0b' || c = '\x0c'

/-- Whether needle is a prefix of hay (character lists). -/
def listIsPre (needle hay : List Char) : Bool :=
  decide (hay.take needle.length = needle)

/-- Model of Python str.startswith. -/
def strStarts (s pre : String) : Bool :=
  listIsPre pre.toList s.toList

/-- Model of Python str.endswith. -/
def strEnds (s suf : String) : Bool :=
  listIsPre suf.toList.reverse s.toList.reverse

/-- Characterwise drop, the model of the Python slice s[n:]. -/
def pyDrop (s : String) (n : Nat) : String :=
  String.mk (s.toList.drop n)

/-- Characterwise length, the model of Python len on strings. -/
def pyLen (s : String) : Nat :=
  s.toList.length

/-- Split a character list at every occurrence of the separator character,
keeping empty pieces: the semantics of Python str.split with an explicit
one-character separator. -/
def listSplitOnChar (sep : Char) : List Char → List (List Char)
  | [] => [[]]
  | c :: cs =>
    let r := listSplitOnChar sep cs
    if c = sep then [] :: r
    else
      match r with
      | [] => [[c]]
      | q :: qs => (c :: q) :: qs

/-- Model of Python str.split with a one-character separator. -/
def splitOnChar (sep : Char) (s : String) : List String :=
  (listSplitOnChar sep s.toList).map String.mk

/-- Split a character list at every character satisfying the predicate,
keeping empty pieces. -/
def listSplitPred (p : Char → Bool) : List Char → List (List Char)
  | [] => [[]]
  | c :: cs =>
    let r := listSplitPred p cs
    if p c then [] :: r
    else
      match r with
      | [] => [[c]]
      | q :: qs => (c :: q) :: qs

/-- Index of the first occurrence of needle in hay, if any. -/
def findSub (needle : List Char) : List Char → Option Nat
  | [] => if needle = [] then some 0 else none
  | c :: t =>
    if listIsPre needle (c :: t) then some 0
    else (findSub needle t).map (fun n => n + 1)

/-- Concatenate with a separator between elements. -/
def joinWith (sep : String) : List String → String
  | [] => ""
  | [x] => x
  | x :: xs => x ++ sep ++ joinWith sep xs

/-- Model of Python str.lower (ASCII letters only, see module comment). -/
def pyLower (s : String) : String :=
  String.mk (s.toList.map Char.toLower)

/-- Model of Python str.strip() with no argument: remove leading and
trailing whitespace. -/
def pyStrip (s : String) : String :=
  String.mk (((s.toList.dropWhile isPySpace).reverse.dropWhile isPySpace).reverse)

/-- Model of Python str.split() with no argument: split on runs of
whitespace, discarding empty pieces. -/
def pySplit (s : String) : List String :=
  ((listSplitPred isPySpace s.toList).map String.mk).filter (fun t => t ≠ "")

/-- Model of posixpath.dirname: everything before the last slash, with
trailing slashes stripped unless the result consists only of slashes. -/
def posixDirname (p : String) : String :=
  let cs := p.toList
  let head := (cs.reverse.dropWhile (fun c => c ≠ '/')).reverse
  if head.isEmpty then ""
  else if head.all (fun c => c = '/') then String.mk head
  else String.mk ((head.reverse.dropWhile (fun c => c = '/')).reverse)

/-- Model of posixpath.basename: everything after the last slash. -/
def posixBasename (p : String) : String :=
  String.mk ((p.toList.reverse.takeWhile (fun c => c ≠ '/')).reverse)

/-- Model of the two-argument posixpath.join. -/
def pyJoin (a b : String) : String :=
  if strStarts b "/" then b
  else if a = "" || strEnds a "/" then a ++ b
  else a ++ "/" ++ b

/-- Component loop of posixpath.normpath: drop empty and dot components,
let a dot-dot component cancel a preceding real component. -/
def normComps (initialSlashes : Nat) (comps : List String) : List String :=
  comps.foldl
    (fun acc comp =>
      if comp = "" ∨ comp = "." then acc
      else if comp ≠ ".." ∨ (initialSlashes = 0 ∧ acc = []) ∨ acc.getLast? = some ".." then
        acc ++ [comp]
      else acc.dropLast)
    []

/-- Model of posixpath.normpath, transcribed from CPython. -/
def normpath (p : String) : String :=
  if p = "" then "."
  else
    let initialSlashes : Nat :=
      if strStarts p "/" then
        if strStarts p "//" ∧ ¬ strStarts p "///" = true then 2 else 1
      else 0
    let comps := normComps initialSlashes (splitOnChar '/' p)
    let res := String.mk (List.replicate initialSlashes '/') ++ joinWith "/" comps
    if res = "" then "." else res

/-- Model of Python str.partition: split at the first occurrence of sep,
returning the text before, the separator, and the text after; when sep does
not occur, the whole string is the first component. Only used with the
non-empty separator of the source. -/
def pyPartition (s sep : String) : String × String × String :=
  match findSub sep.toList s.toList with
  | some i => (String.mk (s.toList.take i), sep, String.mk (s.toList.drop (i + sep.toList.length)))
  | none => (s, "", "")

/-- JSON values as produced by Python json.loads, as far as parse_copy can
observe them: parse_copy only asks whether the result is a list and whether
its elements are strings, so numbers keep their source lexeme instead of a
numeric value. The non-standard constants NaN and Infinity that Python
additionally accepts, and JSON objects, are not modelled: a remainder
containing them fails to parse, which parse_copy treats exactly like a
decode failure (any non-list result is discarded in favour of the
whitespace-split fallback), so the two behaviours only diverge on lines
whose remainder is a JSON array containing an object or such a constant,
which no claim exercises. -/
inductive JValue where
  | null : JValue
  | bool (b : Bool) : JValue
  | num (lexeme : String) : JValue
  | str (s : String) : JValue
  | arr (vs : List JValue) : JValue

/-- Whitespace the JSON grammar allows between tokens. -/
def jsonWS (c : Char) : Bool :=
  c = ' ' || c = '\t' || c = '\n' || c = '\r'

/-- Value of a hexadecimal digit, for JSON backslash-u escapes. -/
def hexDigit (c : Char) : Option Nat :=
  if '0' ≤ c ∧ c ≤ '9' then some (c.toNat - '0'.toNat)
  else if 'a' ≤ c ∧ c ≤ 'f' then some (c.toNat - 'a'.toNat + 10)
  else if 'A' ≤ c ∧ c ≤ 'F' then some (c.toNat - 'A'.toNat + 10)
  else none

/-- Single-character JSON string escapes. -/
def escChar : Char → Option Char
  | '"' => some '"'
  | '\\' => some '\\'
  | '/' => some '/'
  | 'b' => some (Char.ofNat 8)
  | 'f' => some (Char.ofNat 12)
  | 'n' => some '\n'
  | 'r' => some '\r'
  | 't' => some '\t'
  | _ => none

/-- Body of a JSON string literal, after the opening quote: returns the
decoded characters and the input after the closing quote. Strict mode as in
json.loads: raw control characters are rejected. Surrogate-pair combination
for backslash-u escapes is not modelled (no claim exercises it). -/
def parseJString : List Char → Option (List Char × List Char)
  | [] => none
  | '"' :: rest => some ([], rest)
  | '\\' :: rest =>
    match rest with
    | 'u' :: a :: b :: c :: d :: rest2 => do
      let na ← hexDigit a
      let nb ← hexDigit b
      let nc ← hexDigit c
      let nd ← hexDigit d
      let (acc, r) ← parseJString rest2
      pure (Char.ofNat (((na * 16 + nb) * 16 + nc) * 16 + nd) :: acc, r)
    | e :: rest2 => do
      let ec ← escChar e
      let (acc, r) ← parseJString rest2
      pure (ec :: acc, r)
    | [] => none
  | c :: rest =>
    if c.toNat < 32 then none
    else do
      let (acc, r) ← parseJString rest
      pure (c :: acc, r)

/-- JSON number token: the maximal match of the JSON number grammar at the
head of the input, kept as its lexeme. -/
def parseJNum (cs : List Char) : Option (JValue × List Char) := do
  let (sign, r1) : List Char × List Char :=
    match cs with
    | '-' :: r => (['-'], r)
    | _ => ([], cs)
  let (ip, r2) ← match r1 with
    | '0' :: r => some (['0'], r)
    | c :: r =>
      if c.isDigit then
        let ds := r.takeWhile Char.isDigit
        some (c :: ds, r.drop ds.length)
      else none
    | [] => none
  let (fp, r3) : List Char × List Char :=
    match r2 with
    | '.' :: r =>
      let ds := r.takeWhile Char.isDigit
      if ds = [] then ([], r2) else ('.' :: ds, r.drop ds.length)
    | _ => ([], r2)
  let (ep, r4) : List Char × List Char :=
    match r3 with
    | 'e' :: r =>
      match r with
      | '+' :: r5 =>
        let ds := r5.takeWhile Char.isDigit
        if ds = [] then ([], r3) else ('e' :: '+' :: ds, r5.drop ds.length)
      | '-' :: r5 =>
        let ds := r5.takeWhile Char.isDigit
        if ds = [] then ([], r3) else ('e' :: '-' :: ds, r5.drop ds.length)
      | _ =>
        let ds := r.takeWhile Char.isDigit
        if ds = [] then ([], r3) else ('e' :: ds, r.drop ds.length)
    | 'E' :: r =>
      match r with
      | '+' :: r5 =>
        let ds := r5.takeWhile Char.isDigit
        if ds = [] then ([], r3) else ('E' :: '+' :: ds, r5.drop ds.length)
      | '-' :: r5 =>
        let ds := r5.takeWhile Char.isDigit
        if ds = [] then ([], r3) else ('E' :: '-' :: ds, r5.drop ds.length)
      | _ =>
        let ds := r.takeWhile Char.isDigit
        if ds = [] then ([], r3) else ('E' :: ds, r.drop ds.length)
    | _ => ([], r3)
  pure (JValue.num (String.mk (sign ++ ip ++ fp ++ ep)), r4)

mutual

/-- One JSON value at the head of the input (leading whitespace allowed),
with the remaining input. Fuel bounds the recursion depth; loads supplies
enough fuel for any input of its length. -/
def parseJValue : Nat → List Char → Option (JValue × List Char)
  | 0, _ => none
  | Nat.succ fuel, cs =>
    match cs.dropWhile jsonWS with
    | 'n' :: 'u' :: 'l' :: 'l' :: rest => some (JValue.null, rest)
    | 't' :: 'r' :: 'u' :: 'e' :: rest => some (JValue.bool true, rest)
    | 'f' :: 'a' :: 'l' :: 's' :: 'e' :: rest => some (JValue.bool false, rest)
    | '"' :: rest => (parseJString rest).map (fun p => (JValue.str (String.mk p.1), p.2))
    | '[' :: rest =>
      match rest.dropWhile jsonWS with
      | ']' :: r2 => some (JValue.arr [], r2)
      | r2 => (parseJItems fuel r2).map (fun p => (JValue.arr p.1, p.2))
    | other => parseJNum other

/-- Comma-separated JSON array items up to the closing bracket. -/
def parseJItems : Nat → List Char → Option (List JValue × List Char)
  | 0, _ => none
  | Nat.succ fuel, cs => do
    let (v, r) ← parseJValue fuel cs
    match r.dropWhile jsonWS with
    | ',' :: r2 => do
      let (vs, r3) ← parseJItems fuel r2
      pure (v :: vs, r3)
    | ']' :: r2 => pure ([v], r2)
    | _ => none

end

/-- Model of Python json.loads on the JValue fragment above: one JSON
document with nothing but whitespace around it. Every recursive step of the
parser consumes at least one character per two fuel units, so the chosen
fuel is sufficient for any input. -/
def loads (s : String) : Option JValue := do
  let (v, rest) ← parseJValue (2 * s.length + 2) s.toList
  if rest.dropWhile jsonWS = [] then some v else none

/-- Model of sub_if applied to the instruction regexes of parse_copy.
The source substitutes the case-insensitive regex anchored at the start of
the line, consisting of optional whitespace, the instruction word (COPY or
ADD) and exactly one whitespace character, by the empty string, and returns
the result only when a substitution happened; since a match is never empty,
sub_if returns the remainder after the matched prefix exactly when the
regex matches. word is given in lowercase. -/
def stripInstr (word : String) (cmd : String) : Option String :=
  let ws := word.toList
  let rest := cmd.toList.dropWhile isPySpace
  if (rest.take ws.length).map Char.toLower = ws then
    match rest.drop ws.length with
    | [] => none
    | c :: tail => if isPySpace c then some (String.mk tail) else none
  else none

/-- Python truthiness of an optional string: None and the empty string are
falsy. -/
def truthyS : Option String → Bool
  | some s => s ≠ ""
  | none => false

/-- Python's short-circuit or between the two sub_if results: the first
operand when truthy, otherwise the second operand unchanged. -/
def pyOrStr (a b : Option String) : Option String :=
  if truthyS a then a else b

/-- Token list of a copy-style remainder: the decoded array when json.loads
yields a list, otherwise the remainder split on the single space character
(every token then being a Python str). Mirrors the try/except JSONDecodeError
plus isinstance(result, list) logic of parse_copy: any non-list parse result
is discarded exactly like a decode failure. -/
def tokensOf (copy_cmd : String) : List JValue :=
  match loads copy_cmd with
  | some (JValue.arr vs) => vs
  | _ => (splitOnChar ' ' copy_cmd).map JValue.str

/-- Model of any(p.lower().startswith(--from=) for p in paths): lazily
scans left to right; a non-string element raises AttributeError at the
point it is reached (p.lower() does not exist on it), so elements after a
match are never touched. -/
def anyFromFlag : List JValue → Except String Bool
  | [] => Except.ok false
  | JValue.str s :: vs =>
    if strStarts (pyLower s) "--from=" then Except.ok true else anyFromFlag vs
  | _ :: _ => Except.error "AttributeError"

/-- Model of re.match on the URL pattern of parse_copy: the pattern
(https?|ftp): matched case-insensitively at the start of the string. -/
def matchUrl (s : String) : Bool :=
  let t := pyLower s
  strStarts t "http:" || strStarts t "https:" || strStarts t "ftp:"

/-- Model of the list comprehension keeping non-URL paths in parse_copy:
re.match raises TypeError on a non-string element. -/
def filterNonUrl : List JValue → Except String (List JValue)
  | [] => Except.ok []
  | JValue.str s :: vs =>
    (filterNonUrl vs).map (fun r => if matchUrl s then r else JValue.str s :: r)
  | _ :: _ => Except.error "TypeError"

/-- Model of parse_copy: parse the source paths of a docker COPY or ADD
command. The returned list holds the Python objects of the source (JValue):
the shell form always yields strings, the JSON array form can yield
arbitrary JSON values. An Except.error models an uncaught Python
exception. -/
def parse_copy (cmd : String) : Except String (List JValue) :=
  let copy := stripInstr "copy" cmd
  let add := stripInstr "add" cmd
  match pyOrStr copy add with
  | none => Except.ok []
  | some copy_cmd =>
    if copy_cmd = "" then Except.ok []
    else
      let paths := (tokensOf copy_cmd).dropLast
      if truthyS copy then
        match anyFromFlag paths with
        | Except.error e => Except.error e
        | Except.ok true => Except.ok []
        | Except.ok false =>
          if truthyS add then filterNonUrl paths else Except.ok paths
      else
        filterNonUrl paths

/-- Left-to-right effectful map over Except, the model of a Python loop
that aborts at the first raised exception. -/
def mapExcept (f : α → Except String β) : List α → Except String (List β)
  | [] => Except.ok []
  | a :: as => do
    let b ← f a
    let bs ← mapExcept f as
    pure (b :: bs)

/-- The per-line body of the copy_paths generator: every path parse_copy
yields for the line, joined to the definition file's directory and
normalized. A parsed path that is not a string would make os.path.join
raise TypeError; parse_copy in fact never returns such a path. -/
def linePaths (dirname : String) (l : String) : Except String (List String) := do
  let ps ← parse_copy l
  mapExcept (fun v =>
    match v with
    | JValue.str p => Except.ok (normpath (pyJoin dirname p))
    | _ => Except.error "TypeError") ps

/-- Model of copy_paths. The source opens docker_path and iterates its
lines; here the lines are passed explicitly (list_images supplies them from
the modelled filesystem), exactly as Python file iteration yields them. The
frozenset of the generator is modelled as a Finset: the definition file's
own path, the sibling .dockerignore path, and the linePaths of every
line. -/
def copy_paths (docker_path : String) (lines : List String) : Except String (Finset String) := do
  let per ← mapExcept (linePaths (posixDirname docker_path)) lines
  Except.ok (insert docker_path
    (insert (pyJoin (posixDirname docker_path) ".dockerignore") per.flatten.toFinset))

/-- The per-line test of parent: the stripped, lowercased line starts with
from. -/
def isFromLine (l : String) : Bool :=
  strStarts (pyLower (pyStrip l)) "from"

/-- Model of parent: scan the lines of the definition file in order and
return token two of the first line passing isFromLine; no matching line
falls through to Python's implicit None, and a matching line with fewer
than two whitespace-separated tokens makes l.split()[1] raise
IndexError. -/
def parent : List String → Except String (Option String)
  | [] => Except.ok none
  | l :: ls =>
    if isFromLine l then
      match (pySplit l)[1]? with
      | some t => Except.ok (some t)
      | none => Except.error "IndexError"
    else parent ls

/-- Model of dict.get on the name map, the dict being modelled as an
association list with distinct keys. -/
def dictGet (m : List (String × String)) (k : String) : Option String :=
  (m.find? (fun kv => kv.1 = k)).map (fun kv => kv.2)

/-- Model of name: the short name of an image, the basename of the
directory of the definition file concatenated with the suffix after the
literal Dockerfile in the filename; a filename whose partition at
Dockerfile has a non-empty head or no exact middle raises ValueError. -/
def name (docker_path : String) : Except String String :=
  let filename := posixBasename docker_path
  let parts := pyPartition filename "Dockerfile"
  if parts.2.1 ≠ "Dockerfile" ∨ parts.1 ≠ "" then
    Except.error "ValueError"
  else
    Except.ok (posixBasename (posixDirname docker_path) ++ parts.2.2)

/-- Model of image_name: when the path starts with root_path and the name
map holds the directory of the path sliced past root_path, that entry is
returned as both the full and the short name; otherwise the short name from
name, prefixed with the namespace and a slash. -/
def image_name (ns : String) (name_map : List (String × String)) (root_path path : String) : Except String (String × String) :=
  let hit : Option String :=
    if strStarts path root_path then
      dictGet name_map (posixDirname (pyDrop path (pyLen root_path)))
    else none
  match hit with
  | some docker_repo => Except.ok (docker_repo, docker_repo)
  | none =>
    match name path with
    | Except.error e => Except.error e
    | Except.ok short_name => Except.ok (ns ++ "/" ++ short_name, short_name)

/-- A filesystem tree: regular files carry their lines exactly as Python
file iteration yields them (a line read from disk keeps its trailing
newline; the last line of a file may lack one), directories carry a
readable bit (whether os.scandir on them succeeds) and their entries in
enumeration order. CPython enumeration order is OS-dependent and the spec
leaves traversal order unspecified; the model fixes it to the listed
order. -/
inductive Entry where
  | file (ename : String) (lines : List String) : Entry
  | dir (ename : String) (readable : Bool) (entries : List Entry) : Entry

/-- Name of a directory entry. -/
def Entry.nameOf : Entry → String
  | Entry.file n _ => n
  | Entry.dir n _ _ => n

/-- Whether a directory entry is a directory. -/
def Entry.isDir : Entry → Bool
  | Entry.file _ _ => false
  | Entry.dir _ _ _ => true

/-- Lines of a regular file entry (empty for a directory). -/
def Entry.linesOf : Entry → List String
  | Entry.file _ ls => ls
  | Entry.dir _ _ _ => []

mutual

/-- Model of os.walk(top) with the default onerror=None and topdown=True,
transcribed from CPython: scandir of an unreadable directory (or of a
non-directory) raises OSError, which walk catches and hands to onerror;
with onerror=None the error is discarded and the directory yields nothing.
A readable directory yields its (top, dirnames, filenames) triple and then
recurses into each subdirectory in enumeration order. -/
def walkEntry (top : String) : Entry → List (String × List String × List String)
  | Entry.file _ _ => []
  | Entry.dir _ readable es =>
    if readable then
      (top, (es.filter Entry.isDir).map Entry.nameOf,
            (es.filter (fun e => ¬ e.isDir = true)).map Entry.nameOf)
        :: walkChildren top es
    else []

/-- Recursion of walkEntry over the children of a directory at path top:
subdirectories are walked at os.path.join(top, name), files contribute
nothing. -/
def walkChildren (top : String) : List Entry → List (String × List String × List String)
  | [] => []
  | e :: es =>
    (if e.isDir then walkEntry (pyJoin top e.nameOf) e else []) ++ walkChildren top es

end

/-- Model of build_files: every file anywhere under the walk whose filename
starts with the literal Dockerfile, at os.path.join of its directory walk
path and its filename. -/
def build_files (build_root : String) (fs : Entry) : List String :=
  ((walkEntry build_root fs).map
    (fun t => (t.2.2.filter (fun f => strStarts f "Dockerfile")).map (pyJoin t.1))).flatten

mutual

/-- All regular files anywhere under an entry whose own path is top, as
pairs of full path and lines. The readable bit of directories is not
consulted: it models os.scandir failure, while opening an existing file by
full path is modelled as always succeeding (POSIX permits this whenever the
ancestors grant search permission; no claim distinguishes the two). -/
def filesUnder (top : String) : Entry → List (String × List String)
  | Entry.file _ _ => []
  | Entry.dir _ _ es => filesIn top es

/-- Files under the children of a directory whose own path is top. -/
def filesIn (top : String) : List Entry → List (String × List String)
  | [] => []
  | e :: es =>
    (if e.isDir then filesUnder (pyJoin top e.nameOf) e
     else [(pyJoin top e.nameOf, e.linesOf)]) ++ filesIn top es

end

/-- The lines of the regular file at the given full path, when the tree
rooted at top (a directory) holds one. Models a successful open() plus line
iteration; none models FileNotFoundError or IOError. -/
def readFile (top : String) (fs : Entry) (path : String) : Option (List String) :=
  match fs with
  | Entry.file _ _ => none
  | Entry.dir _ _ es => ((filesIn top es).find? (fun pc => pc.1 = path)).map (fun pc => pc.2)

/-- Model of add_extra_tags: when a file literally named TAGS exists beside
the definition file, its lines stripped of surrounding whitespace, in file
order; otherwise the empty list. The os.path.isfile test and the open are
collapsed into one lookup, faithful because opening an existing file in the
model always succeeds. -/
def add_extra_tags (top : String) (fs : Entry) (path : String) : List String :=
  let dir_path := posixDirname path
  match readFile top fs (pyJoin dir_path "TAGS") with
  | some lines => lines.map pyStrip
  | none => []

/-- The Image record of the source, with parent as an explicit option and
copy_paths as a Finset (the frozenset of the source). -/
structure Image where
  name : String
  dir_path : String
  path : String
  parent : Option String
  short_name : String
  copy_paths : Finset String
  extra_tags : List String

/-- One iteration of the list_images loop for one discovered path, in the
evaluation order of the source: image_name, add_extra_tags, then the
keyword arguments of Image(...) in textual order, so copy_paths (which
opens the file) before parent (which opens it again); the single modelled
read serves both. An unreadable definition file aborts with IOError. -/
def mkImage (ns : String) (name_map : List (String × String)) (root_path : String) (fs : Entry) (path : String) : Except String Image := do
  let nms ← image_name ns name_map root_path path
  let extra_tags := add_extra_tags root_path fs path
  let lines ← match readFile root_path fs path with
    | some ls => Except.ok ls
    | none => Except.error "IOError"
  let cps ← copy_paths path lines
  let par ← parent lines
  Except.ok
    { name := nms.1
      short_name := nms.2
      dir_path := posixDirname path
      copy_paths := cps
      path := path
      parent := par
      extra_tags := extra_tags }

/-- Model of list_images: one Image per path yielded by build_files, in
that order; the first exception aborts the whole catalog. -/
def list_images (ns : String) (name_map : List (String × String)) (root_path : String) (fs : Entry) : Except String (List Image) :=
  mapExcept (mkImage ns name_map root_path fs) (build_files root_path fs)

/-- Whether a computation returned normally rather than raising. -/
def exceptOk : Except ε α → Bool
  | Except.ok _ => true
  | Except.error _ => false

/-- Fixture: a traversal root that is unreadable (scandir on it fails),
with a Dockerfile in a readable subdirectory below it. -/
def fsC1closed : Entry :=
  Entry.dir "images" false [Entry.dir "app" true [Entry.file "Dockerfile" ["FROM ubuntu"]]]

/-- Fixture: the same tree as fsC1closed with the root readable. -/
def fsC1open : Entry :=
  Entry.dir "images" true [Entry.dir "app" true [Entry.file "Dockerfile" ["FROM ubuntu"]]]

/-- Fixture: a readable root holding blah/Dockerfile, matching the layout
of the image_name doctests. -/
def fsX : Entry :=
  Entry.dir "x" true [Entry.dir "blah" true [Entry.file "Dockerfile" ["FROM ubuntu"]]]

/-- Fixture: the Image record that cataloguing fsX under the name map
mapping blah to foo/blah produces. -/
def imgX : Image :=
  { name := "foo/blah"
    dir_path := "x/blah"
    path := "x/blah/Dockerfile"
    parent := some "ubuntu"
    short_name := "foo/blah"
    copy_paths := insert "x/blah/Dockerfile" (insert "x/blah/.dockerignore" ∅)
    extra_tags := [] }

theorem loads_empty : loads "" = none := rfl

theorem tokensOf_not_arr (r : String) (h : ∀ vs, loads r ≠ some (JValue.arr vs)) :
    tokensOf r = (splitOnChar ' ' r).map JValue.str := by
  unfold tokensOf
  cases hl : loads r with
  | none => rfl
  | some v =>
    cases v with
    | null => rfl
    | bool b => rfl
    | num n => rfl
    | str s => rfl
    | arr vs => exact absurd hl (h vs)

theorem stripInstr_copy_add (cmd r : String) (h : stripInstr "copy" cmd = some r) :
    stripInstr "add" cmd = none := by
  unfold stripInstr at h ⊢
  by_cases hc :
      ((cmd.toList.dropWhile isPySpace).take ("copy".toList.length)).map Char.toLower = "copy".toList
  · have h3 : ((cmd.toList.dropWhile isPySpace).take ("add".toList.length)).map Char.toLower ≠ "add".toList := by
      intro hadd
      simp only [List.map_take] at hc hadd
      rw [show ("copy".toList.length) = 4 from rfl] at hc
      rw [show ("add".toList.length) = 3 from rfl] at hadd
      have h4 : List.take 3 (List.take 4 (List.map Char.toLower (cmd.toList.dropWhile isPySpace))) = List.take 3 ("copy".toList) := by rw [hc]
      rw [List.take_take, show min 3 4 = 3 from rfl, hadd] at h4
      exact absurd h4 (by decide)
    rw [if_neg h3]
  · rw [if_neg hc] at h
    exact absurd h (by simp)

theorem stripInstr_add_copy (cmd r : String) (h : stripInstr "add" cmd = some r) :
    stripInstr "copy" cmd = none := by
  unfold stripInstr at h ⊢
  by_cases hc :
      ((cmd.toList.dropWhile isPySpace).take ("add".toList.length)).map Char.toLower = "add".toList
  · have h3 : ((cmd.toList.dropWhile isPySpace).take ("copy".toList.length)).map Char.toLower ≠ "copy".toList := by
      intro hcopy
      simp only [List.map_take] at hc hcopy
      rw [show ("copy".toList.length) = 4 from rfl] at hcopy
      rw [show ("add".toList.length) = 3 from rfl] at hc
      have h4 : List.take 3 (List.take 4 (List.map Char.toLower (cmd.toList.dropWhile isPySpace))) = List.take 3 ("copy".toList) := by rw [hcopy]
      rw [List.take_take, show min 3 4 = 3 from rfl, hc] at h4
      exact absurd h4 (by decide)
    rw [if_neg h3]
  · rw [if_neg hc] at h
    exact absurd h (by simp)

theorem anyFromFlag_str_ok (ss : List String) : ∃ b, anyFromFlag (ss.map JValue.str) = Except.ok b := by
  induction ss with
  | nil => exact ⟨false, rfl⟩
  | cons s ss ih =>
    by_cases hs : strStarts (pyLower s) "--from=" = true
    · exact ⟨true, by simp [anyFromFlag, hs]⟩
    · rcases ih with ⟨b, hb⟩
      exact ⟨b, by simp [anyFromFlag, hs, hb]⟩

theorem anyFromFlag_no_from (ss : List String) (h : ∀ s ∈ ss, ¬ strStarts (pyLower s) "--from=" = true) :
    anyFromFlag (ss.map JValue.str) = Except.ok false := by
  induction ss with
  | nil => rfl
  | cons s ss ih =>
    have hs := h s (List.mem_cons_self s ss)
    simp only [List.map_cons, anyFromFlag, if_neg hs]
    exact ih (fun x hx => h x (List.mem_cons_of_mem s hx))

theorem anyFromFlag_has_from (vs : List JValue)
    (hstr : ∀ v ∈ vs, ∃ s, v = JValue.str s)
    (hfrom : ∃ s, JValue.str s ∈ vs ∧ strStarts (pyLower s) "--from=" = true) :
    anyFromFlag vs = Except.ok true := by
  induction vs with
  | nil => rcases hfrom with ⟨s, hmem, _⟩; cases hmem
  | cons v vs ih =>
    rcases hstr v (List.mem_cons_self v vs) with ⟨s0, rfl⟩
    by_cases h0 : strStarts (pyLower s0) "--from=" = true
    · simp [anyFromFlag, h0]
    · simp only [anyFromFlag, if_neg h0]
      apply ih (fun x hx => hstr x (List.mem_cons_of_mem _ hx))
      rcases hfrom with ⟨s, hmem, hs⟩
      cases hmem with
      | head => exact absurd hs h0
      | tail _ hm => exact ⟨s, hm, hs⟩

theorem anyFromFlag_non_str (pre : List String) (v : JValue) (post : List JValue)
    (hv : ∀ s, v ≠ JValue.str s)
    (hpre : ∀ p ∈ pre, ¬ strStarts (pyLower p) "--from=" = true) :
    anyFromFlag (pre.map JValue.str ++ v :: post) = Except.error "AttributeError" := by
  induction pre with
  | nil =>
    cases v with
    | str s => exact absurd rfl (hv s)
    | null => rfl
    | bool b => rfl
    | num n => rfl
    | arr vs => rfl
  | cons p pre ih =>
    have hp := hpre p (List.mem_cons_self p pre)
    simp only [List.map_cons, List.cons_append, anyFromFlag, if_neg hp]
    exact ih (fun x hx => hpre x (List.mem_cons_of_mem p hx))

theorem filterNonUrl_str_ok (ss : List String) : ∃ rs, filterNonUrl (ss.map JValue.str) = Except.ok rs := by
  induction ss with
  | nil => exact ⟨[], rfl⟩
  | cons s ss ih =>
    rcases ih with ⟨rs, hrs⟩
    by_cases hs : matchUrl s = true
    · exact ⟨rs, by simp [filterNonUrl, hrs, hs, Except.map]⟩
    · exact ⟨JValue.str s :: rs, by simp [filterNonUrl, hrs, hs, Except.map]⟩

theorem filterNonUrl_non_str (pre : List String) (v : JValue) (post : List JValue)
    (hv : ∀ s, v ≠ JValue.str s) :
    filterNonUrl (pre.map JValue.str ++ v :: post) = Except.error "TypeError" := by
  induction pre with
  | nil =>
    cases v with
    | str s => exact absurd rfl (hv s)
    | null => rfl
    | bool b => rfl
    | num n => rfl
    | arr vs => rfl
  | cons p pre ih =>
    simp only [List.map_cons, List.cons_append, filterNonUrl]
    rw [show (List.map JValue.str pre).append (v :: post) = List.map JValue.str pre ++ v :: post from rfl, ih]
    rfl

theorem mapExcept_mem_ok (f : α → Except String β) (xs : List α) (ys : List β)
    (h : mapExcept f xs = Except.ok ys) : ∀ y ∈ ys, ∃ x ∈ xs, f x = Except.ok y := by
  induction xs generalizing ys with
  | nil =>
    simp only [mapExcept] at h
    cases h
    intro y hy
    cases hy
  | cons a as ih =>
    simp only [mapExcept, bind, Except.bind] at h
    cases ha : f a with
    | error e => rw [ha] at h; cases h
    | ok b =>
      rw [ha] at h
      cases hrest : mapExcept f as with
      | error e => rw [hrest] at h; cases h
      | ok bs =>
        rw [hrest] at h
        simp only [pure, Except.pure] at h
        cases h
        intro y hy
        cases hy with
        | head => exact ⟨a, List.mem_cons_self a as, ha⟩
        | tail _ hm =>
          rcases ih bs hrest y hm with ⟨x, hx, hfx⟩
          exact ⟨x, List.mem_cons_of_mem a hx, hfx⟩

theorem mapExcept_all_nil (f : α → Except String (List β)) (xs : List α)
    (h : ∀ x ∈ xs, f x = Except.ok []) :
    ∃ ls, mapExcept f xs = Except.ok ls ∧ ls.flatten = ([] : List β) := by
  induction xs with
  | nil => exact ⟨[], rfl, rfl⟩
  | cons a as ih =>
    rcases ih (fun x hx => h x (List.mem_cons_of_mem a hx)) with ⟨ls, hls, hfl⟩
    refine ⟨[] :: ls, ?_, by simp [hfl]⟩
    simp only [mapExcept, bind, Except.bind, h a (List.mem_cons_self a as), hls]
    rfl

theorem walkChildren_append (top : String) (es fs : List Entry) :
    walkChildren top (es ++ fs) = walkChildren top es ++ walkChildren top fs := by
  induction es with
  | nil => rfl
  | cons e es ih => simp [walkChildren, ih]

/-- C1, counterexample: build_files does not fail with an I/O error when
the traversal root is unreadable; on a tree whose unreadable root holds
app/Dockerfile it silently returns the empty sequence, while the identical
tree with a readable root yields that Dockerfile, so the sequence was
silently truncated. -/
theorem claim_c1_counterexample :
    build_files "images" fsC1closed = [] ∧
    build_files "images" fsC1open = ["images/app/Dockerfile"] :=
  ⟨rfl, rfl⟩

/-- C1, amended: os.walk is called with its default onerror=None, which
discards scandir errors, so build_files never raises: an unreadable
directory (the traversal root included) contributes no paths and no error,
and appending an unreadable subdirectory to a readable root leaves the
result unchanged, silently omitting everything below it. -/
theorem claim_c1_amended (top n : String) (es : List Entry) :
    build_files top (Entry.dir n false es) = [] ∧
    ∀ (m : String) (bs : List Entry),
      build_files top (Entry.dir n true (es ++ [Entry.dir m false bs])) =
        build_files top (Entry.dir n true es) := by
  constructor
  · simp [build_files, walkEntry]
  · intro m bs
    simp [build_files, walkEntry, walkChildren_append, walkChildren, Entry.isDir,
      List.filter_append]

/-- C2: whenever the path starts with the root and the directory of the
path sliced past the root (the relative directory the source computes) is
a key of the name map, image_name returns the mapped value as both the full
and the short name, regardless of namespace; otherwise, whenever name
succeeds on the path, it returns namespace/shortName with that short
name. -/
theorem claim_c2 (ns : String) (nm : List (String × String)) (root path : String) :
    (∀ v, strStarts path root = true →
      dictGet nm (posixDirname (pyDrop path (pyLen root))) = some v →
      image_name ns nm root path = Except.ok (v, v)) ∧
    (∀ s, (strStarts path root = false ∨
           dictGet nm (posixDirname (pyDrop path (pyLen root))) = none) →
      name path = Except.ok s →
      image_name ns nm root path = Except.ok (ns ++ "/" ++ s, s)) := by
  constructor
  · intro v hst hget
    simp only [image_name, hst, if_true, hget]
  · intro s hmiss hname
    rcases hmiss with hst | hget
    · simp only [image_name, hst, Bool.false_eq_true, if_false, hname]
    · by_cases hst : strStarts path root = true
      · simp only [image_name, hst, if_true, hget, hname]
      · simp only [image_name, if_neg hst, hname]

/-- C2, witness: the doctest instances, one hitting the name map and one
missing it. -/
theorem claim_c2_witness :
    image_name "shipwright" [("blah", "foo/blah")] "x/" "x/blah/Dockerfile" =
      Except.ok ("foo/blah", "foo/blah") ∧
    image_name "shipwright" [("blah", "foo/blah")] "x/" "x/baz/Dockerfile" =
      Except.ok ("shipwright/baz", "baz") :=
  ⟨(claim_c2 "shipwright" [("blah", "foo/blah")] "x/" "x/blah/Dockerfile").1 "foo/blah"
      (by decide) (by decide),
   (claim_c2 "shipwright" [("blah", "foo/blah")] "x/" "x/baz/Dockerfile").2 "baz"
      (Or.inr (by decide)) rfl⟩

/-- C4: the parent is token two of the first line in file order whose
stripped, lowercased content begins with from, later matching lines being
ignored; when no line matches, parent returns an absent value rather than
an error. -/
theorem claim_c4 (ls : List String) :
    (ls.find? isFromLine = none → parent ls = Except.ok none) ∧
    (∀ l t, ls.find? isFromLine = some l → (pySplit l)[1]? = some t →
      parent ls = Except.ok (some t)) := by
  induction ls with
  | nil => exact ⟨fun _ => rfl, fun l t h _ => by cases h⟩
  | cons a as ih =>
    by_cases ha : isFromLine a = true
    · constructor
      · intro h
        rw [List.find?_cons_of_pos _ ha] at h
        cases h
      · intro l t h ht
        rw [List.find?_cons_of_pos _ ha] at h
        cases h
        simp only [parent, ha, if_true, ht]
    · constructor
      · intro h
        rw [List.find?_cons_of_neg _ ha] at h
        simp only [parent, ha, Bool.false_eq_true, if_false]
        exact ih.1 h
      · intro l t h ht
        rw [List.find?_cons_of_neg _ ha] at h
        simp only [parent, ha, Bool.false_eq_true, if_false]
        exact ih.2 l t h ht

/-- C4, witness: a file with no from line yields an absent parent, and a
multi-stage file yields the parent of its first FROM line only. -/
theorem claim_c4_witness :
    parent ["RUN x"] = Except.ok none ∧
    parent ["FROM ubuntu:20.04 AS builder", "RUN x", "FROM scratch"] =
      Except.ok (some "ubuntu:20.04") :=
  ⟨(claim_c4 ["RUN x"]).1 (by decide),
   (claim_c4 ["FROM ubuntu:20.04 AS builder", "RUN x", "FROM scratch"]).2
      "FROM ubuntu:20.04 AS builder" "ubuntu:20.04" (by decide) (by decide)⟩

/-- C9: when the first line whose stripped, lowercased content begins with
from has fewer than two whitespace-separated tokens, parent raises
IndexError instead of returning an absent parent. -/
theorem claim_c9 (ls : List String) (l : String)
    (h1 : ls.find? isFromLine = some l) (h2 : (pySplit l).length ≤ 1) :
    parent ls = Except.error "IndexError" := by
  induction ls with
  | nil => cases h1
  | cons a as ih =>
    by_cases ha : isFromLine a = true
    · rw [List.find?_cons_of_pos _ ha] at h1
      cases h1
      simp only [parent, ha, if_true, List.getElem?_eq_none h2]
    · rw [List.find?_cons_of_neg _ ha] at h1
      simp only [parent, ha, Bool.false_eq_true, if_false]
      exact ih h1

/-- C9, witness: a file whose only line is FROM makes parent raise
IndexError. -/
theorem claim_c9_witness : parent ["FROM"] = Except.error "IndexError" :=
  claim_c9 ["FROM"] "FROM" (by decide) (by decide)

/-- C5: whenever copy_paths returns a result, that Finset (duplicate-free
by construction, as the source frozenset is) contains the definition
file's own path and the sibling .dockerignore path, whose existence is
never checked; and when no line contributes any path, for instance because
no copy-style instruction occurs, the result is exactly these two
paths. -/
theorem claim_c5 (path : String) (lines : List String) :
    (∀ s, copy_paths path lines = Except.ok s →
      path ∈ s ∧ pyJoin (posixDirname path) ".dockerignore" ∈ s) ∧
    ((∀ l ∈ lines, parse_copy l = Except.ok []) →
      copy_paths path lines =
        Except.ok (insert path (insert (pyJoin (posixDirname path) ".dockerignore")
          (∅ : Finset String)))) := by
  constructor
  · intro s h
    simp only [copy_paths, bind, Except.bind] at h
    cases hm : mapExcept (linePaths (posixDirname path)) lines with
    | error e => rw [hm] at h; cases h
    | ok per =>
      rw [hm] at h
      cases h
      exact ⟨Finset.mem_insert_self _ _,
        Finset.mem_insert_of_mem (Finset.mem_insert_self _ _)⟩
  · intro hall
    have hlp : ∀ l ∈ lines, linePaths (posixDirname path) l = Except.ok [] := by
      intro l hl
      simp only [linePaths, bind, Except.bind, hall l hl]
      rfl
    rcases mapExcept_all_nil _ lines hlp with ⟨ls, hm, hfl⟩
    simp only [copy_paths, bind, Except.bind, hm, hfl, List.toFinset_nil]

/-- C5, witness: a one-line file with no copy-style instruction yields
exactly the definition file and its .dockerignore sibling. -/
theorem claim_c5_witness :
    copy_paths "app/Dockerfile" ["FROM ubuntu"] =
      Except.ok (insert "app/Dockerfile"
        (insert (pyJoin (posixDirname "app/Dockerfile") ".dockerignore") (∅ : Finset String))) ∧
    "app/Dockerfile" ∈ insert "app/Dockerfile"
        (insert (pyJoin (posixDirname "app/Dockerfile") ".dockerignore") (∅ : Finset String)) ∧
    pyJoin (posixDirname "app/Dockerfile") ".dockerignore" ∈ insert "app/Dockerfile"
        (insert (pyJoin (posixDirname "app/Dockerfile") ".dockerignore") (∅ : Finset String)) := by
  have h2 := (claim_c5 "app/Dockerfile" ["FROM ubuntu"]).2 (by
    intro l hl
    cases hl with
    | head => rfl
    | tail _ hm => cases hm)
  have h1 := (claim_c5 "app/Dockerfile" ["FROM ubuntu"]).1 _ h2
  exact ⟨h2, h1.1, h1.2⟩

/-- C3, counterexample: the shell form is split on the single space
character, not on whitespace: the line COPY a TAB b /dest yields the single
candidate a TAB b, not the two candidates a and b that whitespace splitting
would give. -/
theorem claim_c3_counterexample :
    parse_copy "COPY a\tb /dest" = Except.ok [JValue.str "a\tb"] ∧
    parse_copy "COPY a\tb /dest" ≠ Except.ok [JValue.str "a", JValue.str "b"] := by
  refine ⟨rfl, ?_⟩
  intro h
  rw [(rfl : parse_copy "COPY a\tb /dest" = Except.ok [JValue.str "a\tb"])] at h
  injection h with h1
  injection h1 with h2 h3
  injection h3

/-- C3, amended: for a copy-style line whose remainder is not a JSON
array, the remainder is split on the single space character (so runs of
spaces yield empty-string tokens and other whitespace does not separate
tokens), the last token is discarded, and for a COPY line with no --from=
candidate the preceding tokens are exactly the extracted paths; in
particular COPY a b /dest contributes exactly a and b. -/
theorem claim_c3_amended (cmd r : String)
    (h1 : pyOrStr (stripInstr "copy" cmd) (stripInstr "add" cmd) = some r)
    (h2 : r ≠ "")
    (h3 : ∀ vs, loads r ≠ some (JValue.arr vs))
    (h4 : ∀ p ∈ (splitOnChar ' ' r).dropLast, ¬ strStarts (pyLower p) "--from=" = true)
    (h5 : truthyS (stripInstr "add" cmd) = false) :
    parse_copy cmd = Except.ok (((splitOnChar ' ' r).dropLast).map JValue.str) := by
  have htok : (tokensOf r).dropLast = ((splitOnChar ' ' r).dropLast).map JValue.str := by
    rw [tokensOf_not_arr r h3, List.map_dropLast]
  by_cases hc : truthyS (stripInstr "copy" cmd) = true
  · simp only [parse_copy, h1, if_neg h2, hc, if_true, htok]
    rw [anyFromFlag_no_from _ h4]
    simp only [h5, Bool.false_eq_true, if_false]
  · have hadd : stripInstr "add" cmd = some r := by
      unfold pyOrStr at h1
      rw [if_neg hc] at h1
      exact h1
    rw [hadd] at h5
    simp [truthyS, h2] at h5

/-- C3, witness: COPY a b /dest yields exactly the candidates a and b. -/
theorem claim_c3_witness :
    parse_copy "COPY a b /dest" = Except.ok [JValue.str "a", JValue.str "b"] := by
  have h := claim_c3_amended "COPY a b /dest" "a b /dest" rfl (by decide)
    (fun vs h => nomatch h) (by decide) rfl
  exact h

/-- C6: a COPY line whose candidate source paths (all strings, the last
token discarded) include one that case-insensitively starts with --from=
contributes zero paths; the suppression does not apply to ADD, whose
corresponding line keeps its non-URL candidates. -/
theorem claim_c6 :
    (∀ cmd r : String, stripInstr "copy" cmd = some r → r ≠ "" →
      (∀ v ∈ (tokensOf r).dropLast, ∃ s, v = JValue.str s) →
      (∃ s, JValue.str s ∈ (tokensOf r).dropLast ∧ strStarts (pyLower s) "--from=" = true) →
      parse_copy cmd = Except.ok []) ∧
    parse_copy "ADD --from=builder /x /y" =
      Except.ok [JValue.str "--from=builder", JValue.str "/x"] := by
  constructor
  · intro cmd r hcopy hr hstr hfrom
    have hadd := stripInstr_copy_add cmd r hcopy
    have h1 : pyOrStr (stripInstr "copy" cmd) (stripInstr "add" cmd) = some r := by
      unfold pyOrStr
      rw [hcopy]
      simp [truthyS, hr]
    have hc : truthyS (stripInstr "copy" cmd) = true := by
      rw [hcopy]
      simp [truthyS, hr]
    simp only [parse_copy, h1, if_neg hr, hc, if_true]
    rw [anyFromFlag_has_from _ hstr hfrom]
  · rfl

/-- C6, witness: COPY --from=builder /x /y contributes zero paths. -/
theorem claim_c6_witness :
    parse_copy "COPY --from=builder /x /y" = Except.ok [] :=
  claim_c6.1 "COPY --from=builder /x /y" "--from=builder /x /y" rfl (by decide)
    (by
      intro v hv
      cases hv with
      | head => exact ⟨"--from=builder", rfl⟩
      | tail _ h2 =>
        cases h2 with
        | head => exact ⟨"/x", rfl⟩
        | tail _ h3 => cases h3)
    ⟨"--from=builder", List.Mem.head _, by decide⟩

/-- C7: a COPY line whose remainder parses as a JSON array of strings
extracts exactly what the COPY line with the same tokens in shell form
extracts; and a remainder that is not valid JSON is never surfaced as an
error, the shell-form fallback always returning normally. -/
theorem claim_c7 :
    (∀ cmd1 cmd2 r1 r2 : String, ∀ ss : List String,
      stripInstr "copy" cmd1 = some r1 → stripInstr "copy" cmd2 = some r2 →
      r2 ≠ "" → loads r1 = some (JValue.arr (ss.map JValue.str)) →
      (∀ vs, loads r2 ≠ some (JValue.arr vs)) → splitOnChar ' ' r2 = ss →
      parse_copy cmd1 = parse_copy cmd2) ∧
    (∀ cmd r : String, stripInstr "copy" cmd = some r → r ≠ "" → loads r = none →
      exceptOk (parse_copy cmd) = true) := by
  constructor
  · intro cmd1 cmd2 r1 r2 ss hc1 hc2 hr2 hl1 hl2 hsplit
    have hr1 : r1 ≠ "" := by
      intro he
      rw [he, loads_empty] at hl1
      cases hl1
    have had1 := stripInstr_copy_add cmd1 r1 hc1
    have had2 := stripInstr_copy_add cmd2 r2 hc2
    have ho1 : pyOrStr (stripInstr "copy" cmd1) none = some r1 := by
      unfold pyOrStr
      rw [hc1]
      simp [truthyS, hr1]
    have ho2 : pyOrStr (stripInstr "copy" cmd2) none = some r2 := by
      unfold pyOrStr
      rw [hc2]
      simp [truthyS, hr2]
    have ht1 : truthyS (stripInstr "copy" cmd1) = true := by
      rw [hc1]
      simp [truthyS, hr1]
    have ht2 : truthyS (stripInstr "copy" cmd2) = true := by
      rw [hc2]
      simp [truthyS, hr2]
    have htok1 : (tokensOf r1).dropLast = (ss.map JValue.str).dropLast := by
      unfold tokensOf
      rw [hl1]
    have htok2 : (tokensOf r2).dropLast = (ss.map JValue.str).dropLast := by
      rw [tokensOf_not_arr r2 hl2, hsplit]
    simp only [parse_copy, had1, had2, ho1, ho2, if_neg hr1, if_neg hr2, ht1, ht2, if_true,
      htok1, htok2]
  · intro cmd r hc hr hl
    have had := stripInstr_copy_add cmd r hc
    have ho : pyOrStr (stripInstr "copy" cmd) none = some r := by
      unfold pyOrStr
      rw [hc]
      simp [truthyS, hr]
    have ht : truthyS (stripInstr "copy" cmd) = true := by
      rw [hc]
      simp [truthyS, hr]
    have htok : (tokensOf r).dropLast = ((splitOnChar ' ' r).dropLast).map JValue.str := by
      rw [tokensOf_not_arr r (fun vs h => by rw [hl] at h; cases h), List.map_dropLast]
    simp only [parse_copy, had, ho, if_neg hr, ht, if_true, htok]
    rcases anyFromFlag_str_ok ((splitOnChar ' ' r).dropLast) with ⟨b, hb⟩
    rw [hb]
    cases b
    · rfl
    · rfl

/-- C7, witness: the JSON array form of COPY a.txt b.txt /dest extracts
the same candidates as the shell form, namely a.txt and b.txt, and the
invalid-JSON remainder is handled without error. -/
theorem claim_c7_witness :
    parse_copy "COPY [\"a.txt\",\"b.txt\",\"/dest\"]" = parse_copy "COPY a.txt b.txt /dest" ∧
    parse_copy "COPY a.txt b.txt /dest" = Except.ok [JValue.str "a.txt", JValue.str "b.txt"] ∧
    exceptOk (parse_copy "COPY a.txt b.txt /dest") = true :=
  ⟨claim_c7.1 "COPY [\"a.txt\",\"b.txt\",\"/dest\"]" "COPY a.txt b.txt /dest"
      "[\"a.txt\",\"b.txt\",\"/dest\"]" "a.txt b.txt /dest" ["a.txt", "b.txt", "/dest"]
      rfl rfl (by decide) rfl (fun vs h => nomatch h) rfl,
   rfl,
   claim_c7.2 "COPY a.txt b.txt /dest" "a.txt b.txt /dest" rfl (by decide) rfl⟩

/-- C10, counterexample: a JSON-array remainder containing a non-string
element does not always raise: when the non-string is the final
destination token it is discarded untouched and the line extracts its
string sources normally. -/
theorem claim_c10_counterexample :
    parse_copy "COPY [\"a.txt\", 7]" = Except.ok [JValue.str "a.txt"] ∧
    ∀ e, parse_copy "COPY [\"a.txt\", 7]" ≠ Except.error e := by
  refine ⟨rfl, ?_⟩
  intro e h
  rw [(rfl : parse_copy "COPY [\"a.txt\", 7]" = Except.ok [JValue.str "a.txt"])] at h
  cases h

/-- C10, amended: a non-string element among the candidate source paths
(the last token discarded) raises an unhandled error when it is reached:
for COPY, when no earlier candidate starts with --from=, the lazy any scan
raises AttributeError at it; for ADD the URL filter raises TypeError. -/
theorem claim_c10_amended :
    (∀ cmd r : String, ∀ pre : List String, ∀ v : JValue, ∀ post : List JValue,
      stripInstr "copy" cmd = some r → r ≠ "" →
      (tokensOf r).dropLast = pre.map JValue.str ++ v :: post →
      (∀ s, v ≠ JValue.str s) →
      (∀ p ∈ pre, ¬ strStarts (pyLower p) "--from=" = true) →
      parse_copy cmd = Except.error "AttributeError") ∧
    (∀ cmd r : String, ∀ pre : List String, ∀ v : JValue, ∀ post : List JValue,
      stripInstr "add" cmd = some r → r ≠ "" →
      (tokensOf r).dropLast = pre.map JValue.str ++ v :: post →
      (∀ s, v ≠ JValue.str s) →
      parse_copy cmd = Except.error "TypeError") := by
  constructor
  · intro cmd r pre v post hc hr htok hv hpre
    have had := stripInstr_copy_add cmd r hc
    have ho : pyOrStr (stripInstr "copy" cmd) (stripInstr "add" cmd) = some r := by
      unfold pyOrStr
      rw [hc]
      simp [truthyS, hr]
    have ht : truthyS (stripInstr "copy" cmd) = true := by
      rw [hc]
      simp [truthyS, hr]
    simp only [parse_copy, ho, if_neg hr, ht, if_true, htok]
    rw [anyFromFlag_non_str pre v post hv hpre]
  · intro cmd r pre v post ha hr htok hv
    have hcn := stripInstr_add_copy cmd r ha
    have ho : pyOrStr (stripInstr "copy" cmd) (stripInstr "add" cmd) = some r := by
      unfold pyOrStr
      rw [hcn, ha]
      rfl
    have ht : truthyS (stripInstr "copy" cmd) = false := by
      rw [hcn]
      rfl
    simp only [parse_copy, ho, if_neg hr, ht, Bool.false_eq_true, if_false, htok]
    exact filterNonUrl_non_str pre v post hv

/-- C10, witness: COPY with a leading non-string source raises
AttributeError, ADD with one raises TypeError. -/
theorem claim_c10_witness :
    parse_copy "COPY [1, \"/dest\"]" = Except.error "AttributeError" ∧
    parse_copy "ADD [1, \"/d\"]" = Except.error "TypeError" :=
  ⟨claim_c10_amended.1 "COPY [1, \"/dest\"]" "[1, \"/dest\"]" [] (JValue.num "1") [] rfl
      (by decide) rfl (fun s h => nomatch h) (fun p hp => nomatch hp),
   claim_c10_amended.2 "ADD [1, \"/d\"]" "[1, \"/d\"]" [] (JValue.num "1") [] rfl
      (by decide) rfl (fun s h => nomatch h)⟩

theorem dictGet_mem (m : List (String × String)) (k v : String) (h : dictGet m k = some v) :
    ∃ kv ∈ m, kv.2 = v := by
  unfold dictGet at h
  cases hf : m.find? (fun kv => kv.1 = k) with
  | none => rw [hf] at h; cases h
  | some kv =>
    rw [hf] at h
    injection h with h2
    exact ⟨kv, List.mem_of_find?_eq_some hf, h2⟩

theorem image_name_cases (ns : String) (nm : List (String × String)) (root path : String)
    (nms : String × String) (h : image_name ns nm root path = Except.ok nms) :
    (∃ kv ∈ nm, kv.2 = nms.1) ∨ ∃ s, nms.1 = ns ++ "/" ++ s := by
  unfold image_name at h
  by_cases hst : strStarts path root = true
  · rw [if_pos hst] at h
    cases hget : dictGet nm (posixDirname (pyDrop path (pyLen root))) with
    | some v =>
      rw [hget] at h
      injection h with h2
      rcases dictGet_mem nm _ v hget with ⟨kv, hkv, hv⟩
      refine Or.inl ⟨kv, hkv, ?_⟩
      rw [hv, ← h2]
    | none =>
      rw [hget] at h
      cases hn : name path with
      | error e => rw [hn] at h; cases h
      | ok s =>
        rw [hn] at h
        injection h with h2
        exact Or.inr ⟨s, by rw [← h2]⟩
  · rw [if_neg hst] at h
    cases hn : name path with
    | error e => rw [hn] at h; cases h
    | ok s =>
      rw [hn] at h
      injection h with h2
      exact Or.inr ⟨s, by rw [← h2]⟩

theorem exceptBind_ok (a : α) (f : α → Except ε β) : Except.bind (Except.ok a) f = f a := rfl

theorem exceptBind_err (e : ε) (f : α → Except ε β) :
    Except.bind (Except.error e) f = Except.error e := rfl

theorem mkImage_name (ns : String) (nm : List (String × String)) (root : String)
    (fs : Entry) (path : String) (img : Image)
    (h : mkImage ns nm root fs path = Except.ok img) :
    ∃ nms, image_name ns nm root path = Except.ok nms ∧ img.name = nms.1 := by
  simp only [mkImage, bind] at h
  cases hin : image_name ns nm root path with
  | error e => rw [hin, exceptBind_err] at h; cases h
  | ok nms =>
    rw [hin] at h
    simp only [exceptBind_ok] at h
    refine ⟨nms, rfl, ?_⟩
    cases hrf : readFile root fs path with
    | none => rw [hrf] at h; simp only [exceptBind_err] at h; cases h
    | some lines =>
      rw [hrf] at h
      simp only [exceptBind_ok] at h
      cases hcp : copy_paths path lines with
      | error e => rw [hcp, exceptBind_err] at h; cases h
      | ok cps =>
        rw [hcp] at h
        simp only [exceptBind_ok] at h
        cases hpar : parent lines with
        | error e => rw [hpar, exceptBind_err] at h; cases h
        | ok par =>
          rw [hpar] at h
          simp only [exceptBind_ok] at h
          injection h with h2
          rw [← h2]

/-- C8, amended: provided every value of the name map is non-empty, the
name field of every Image record produced by list_images is non-empty,
whatever the namespace (an unmapped image gets namespace/shortName, which
contains a slash). -/
theorem claim_c8_amended (ns : String) (nm : List (String × String)) (root : String)
    (fs : Entry) (imgs : List Image)
    (hnm : ∀ kv ∈ nm, kv.2 ≠ "")
    (h : list_images ns nm root fs = Except.ok imgs) :
    ∀ img ∈ imgs, img.name ≠ "" := by
  intro img hmem
  rcases mapExcept_mem_ok _ _ _ h img hmem with ⟨p, _, hmk⟩
  rcases mkImage_name ns nm root fs p img hmk with ⟨nms, hin, hname⟩
  rcases image_name_cases ns nm root p nms hin with ⟨kv, hkv, hv⟩ | ⟨s, hs⟩
  · rw [hname, ← hv]
    exact hnm kv hkv
  · rw [hname, hs]
    intro he
    have h2 := congrArg String.length he
    rw [String.length_append, String.length_append] at h2
    have h3 : ("/" : String).length = 1 := rfl
    have h4 : ("" : String).length = 0 := rfl
    rw [h3, h4] at h2
    omega

/-- C8, counterexample: a name map may map a directory to the empty
string, and list_images then produces an Image record whose name field is
empty. -/
theorem claim_c8_counterexample :
    (list_images "shipwright" [("blah", "")] "x/" fsX).map (fun l => l.map Image.name) =
      Except.ok [""] := rfl

/-- C8, witness: the catalog of fsX under a non-empty name mapping has no
empty name. -/
theorem claim_c8_witness : imgX.name ≠ "" :=
  claim_c8_amended "shipwright" [("blah", "foo/blah")] "x/" fsX [imgX] (by decide) rfl
    imgX (List.Mem.head _)

end Shipwright
